import Mathlib

/-!
Shallow embedding of the CiviCalc beam-analysis core: the numerical kernel
(`solver.js`) and the beam analysis engine (`structural.js`).  JavaScript
numbers are modelled as exact rationals (`ℚ`); array indexing uses `List`
with `getD`/`zipWith` at the places where the source indexes within bounds.
-/

set_option maxRecDepth 4000

namespace CiviCalc

/-! ## Numerical kernel (`src/utils/math/solver.js`) -/

/-- `linspace(start, end, n)` from solver.js: `n` evenly spaced values from
`s` to `e` inclusive; `n < 2` degenerates to `[s]`. -/
def linspace (s e : ℚ) (n : ℕ) : List ℚ :=
  if n < 2 then [s]
  else
    let step := (e - s) / ((n : ℚ) - 1)
    (List.range n).map (fun i : ℕ => s + (i : ℚ) * step)

/-- Helper for `cumulativeIntegral`: processes the remaining samples, carrying
the previous sample `prev` and the running integral `acc`, mirroring the JS
loop `result.push(result[i-1] + (dx/2)*(y[i-1]+y[i]))`. -/
def cumulativeIntegralAux (dx : ℚ) : ℚ → ℚ → List ℚ → List ℚ
  | _, _, [] => []
  | prev, acc, yi :: rest =>
    let nxt := acc + dx / 2 * (prev + yi)
    nxt :: cumulativeIntegralAux dx yi nxt rest

/-- `cumulativeIntegral(y, dx, initialValue)` from solver.js: running
trapezoidal integral.  The JS code initializes `result = [initialValue]` and
then loops from index 1, so an empty `y` still yields the one-element list
`[initialValue]`. -/
def cumulativeIntegral (y : List ℚ) (dx : ℚ) (initialValue : ℚ) : List ℚ :=
  match y with
  | [] => [initialValue]
  | y0 :: rest => initialValue :: cumulativeIntegralAux dx y0 initialValue rest

/-- Strided accumulation mirroring the JS loops
`for (let i = s; i < N; i += 2) sum += coeff * y[i]` in `simpsonsRule`. -/
def strideSum (y : List ℚ) (coeff : ℚ) (s N : ℕ) : ℚ :=
  if h : s < N then coeff * y.getD s 0 + strideSum y coeff (s + 2) N
  else 0
termination_by N - s
decreasing_by omega

/-- `simpsonsRule(y, dx)` from solver.js.  `n = y.length - 1` intervals;
fewer than 3 points throws (modelled as `Except.error`); an odd interval
count integrates the first `n-1` intervals by Simpson and adds a trapezoidal
term for the last segment.  (JS computes `n = -1` for an empty array; natural
subtraction gives `0` here, but both fall in the `n < 2` error branch.) -/
def simpsonsRule (y : List ℚ) (dx : ℚ) : Except String ℚ :=
  let n := y.length - 1
  if n < 2 then
    Except.error "Simpson's rule requires at least 3 points"
  else
    let effectiveN := if n % 2 ≠ 0 then n - 1 else n
    let effectiveY := if n % 2 ≠ 0 then y.dropLast else y
    let sum := effectiveY.getD 0 0 + effectiveY.getD effectiveN 0
      + strideSum effectiveY 4 1 effectiveN + strideSum effectiveY 2 2 effectiveN
    let integral := (dx / 3) * sum
    if n % 2 ≠ 0 then
      Except.ok (integral + (dx / 2) * (y.getD (n - 1) 0 + y.getD n 0))
    else
      Except.ok integral

/-- Result record of `findMaxAbs` from solver.js. -/
structure MaxAbsResult where
  max : ℚ
  absMax : ℚ
  index : ℕ
  position : ℚ
  deriving Repr, DecidableEq

/-- Loop body of `findMaxAbs`: the accumulator is `(maxVal, maxIndex)`, the
element a position/value pair. -/
def maxAbsStep (acc : ℚ × ℕ) (iv : ℕ × ℚ) : ℚ × ℕ :=
  if |iv.2| > |acc.1| then (iv.2, iv.1) else acc

/-- `findMaxAbs(arr, dx)` from solver.js: scans with strict `>` against an
initial `maxVal = 0`, keeping the first occurrence of the strictly greatest
absolute value; `position = index * dx`. -/
def findMaxAbs (arr : List ℚ) (dx : ℚ) : MaxAbsResult :=
  let p := arr.enum.foldl maxAbsStep (0, 0)
  { max := p.1, absMax := |p.1|, index := p.2, position := (p.2 : ℚ) * dx }

/-- `roundTo(value, decimals)` from solver.js: `Math.round(value*10^d)/10^d`,
where JS `Math.round` rounds half toward `+∞`, i.e. `⌊x + 1/2⌋`. -/
def roundTo (value : ℚ) (decimals : ℕ) : ℚ :=
  let factor : ℚ := (10 : ℚ) ^ decimals
  ((⌊value * factor + 1 / 2⌋ : ℤ) : ℚ) / factor

/-! ## Beam analysis engine (`src/utils/calculators/structural.js`) -/

/-- The three load kinds accepted by `BeamAnalyzer` (`load.type` strings
`'point'`, `'udl'`, `'moment'`). -/
inductive LoadType where
  | point
  | udl
  | moment
  deriving Repr, DecidableEq

/-- The five support families of the engine (`SUPPORT_TYPES` in the store
module, `src/store/index.js`). -/
inductive SupportType where
  | simplySupported
  | cantilever
  | overhanging
  | fixedBoth
  | proppedCantilever
  deriving Repr, DecidableEq

/-- A normalized load as stored in `BeamAnalyzer.loads` (field `end` is
`endPos` here because `end` is reserved in Lean). -/
structure Load where
  type : LoadType
  magnitude : ℚ
  position : ℚ
  start : ℚ
  endPos : ℚ
  deriving Repr, DecidableEq

/-- A raw load object as passed to `BeamAnalyzer.addLoad`: every field may be
absent (`none` models a missing/`undefined` JS property). -/
structure LoadInput where
  type : Option LoadType := none
  magnitude : Option ℚ := none
  P : Option ℚ := none
  w : Option ℚ := none
  M : Option ℚ := none
  position : Option ℚ := none
  a : Option ℚ := none
  start : Option ℚ := none
  endP : Option ℚ := none
  deriving Repr, DecidableEq

/-- JS `v || d` on an optional numeric field: a present non-zero value wins,
a present `0` or an absent field falls through to the default. -/
def jsOr (v : Option ℚ) (d : ℚ) : ℚ :=
  match v with
  | some x => if x = 0 then d else x
  | none => d

/-- The normalization performed inside `BeamAnalyzer.addLoad`. -/
def normalizeLoad (span : ℚ) (load : LoadInput) : Load :=
  { type := load.type.getD LoadType.point
    magnitude := jsOr load.magnitude (jsOr load.P (jsOr load.w (jsOr load.M 0)))
    position := jsOr load.position (jsOr load.a 0)
    start := jsOr load.start 0
    endPos := jsOr load.endP span }

/-- `BeamAnalyzer.addLoad`: pushes the normalized load onto the load list. -/
def addLoad (span : ℚ) (loads : List Load) (load : LoadInput) : List Load :=
  loads ++ [normalizeLoad span load]

/-- `BeamAnalyzer.setLoads`: clears the list and adds each input in order. -/
def setLoads (span : ℚ) (loads : List LoadInput) : List Load :=
  loads.foldl (addLoad span) []

/-- The reaction record `{ Ra, Rb }` of the src `BeamAnalyzer`. -/
structure Reactions where
  Ra : ℚ
  Rb : ℚ
  deriving Repr, DecidableEq

/-- One step of the accumulation loop in `calculateReactions`: the pair is
`(totalForce, momentAboutA)`. -/
def reactionStep (p : ℚ × ℚ) (l : Load) : ℚ × ℚ :=
  match l.type with
  | LoadType.point => (p.1 + l.magnitude, p.2 + l.magnitude * l.position)
  | LoadType.udl =>
    let length := l.endPos - l.start
    let W := l.magnitude * length
    let centroid := l.start + length / 2
    (p.1 + W, p.2 + W * centroid)
  | LoadType.moment => (p.1, p.2 + l.magnitude)

/-- `BeamAnalyzer.calculateReactions` (simply supported):
`Rb = ΣM/span` (0 when `span = 0`), `Ra = ΣF - Rb`. -/
def calculateReactions (span : ℚ) (loads : List Load) : Reactions :=
  let acc := loads.foldl reactionStep (0, 0)
  let Rb := if span ≠ 0 then acc.2 / span else 0
  { Ra := acc.1 - Rb, Rb := Rb }

/-- Shear contribution of a single load at position `xi`
(inner loop body of `calculateShearForce`). -/
def shearStep (xi : ℚ) (s : ℚ) (l : Load) : ℚ :=
  match l.type with
  | LoadType.point => if xi ≥ l.position then s - l.magnitude else s
  | LoadType.udl =>
    if xi > l.start then
      let effectiveLength := min xi l.endPos - l.start
      if effectiveLength > 0 then s - l.magnitude * effectiveLength else s
    else s
  | LoadType.moment => s

/-- Shear force at node `xi` (body of the outer loop of
`calculateShearForce`): starts from `Ra` and subtracts load contributions. -/
def shearAt (Ra : ℚ) (loads : List Load) (xi : ℚ) : ℚ :=
  loads.foldl (shearStep xi) Ra

/-- `BeamAnalyzer.calculateShearForce` over the node grid `x`. -/
def calculateShearForce (Ra : ℚ) (loads : List Load) (x : List ℚ) : List ℚ :=
  x.map (shearAt Ra loads)

/-- Bending-moment contribution of a single load at position `xi`
(inner loop body of `calculateBendingMoment`). -/
def momentStep (xi : ℚ) (m : ℚ) (l : Load) : ℚ :=
  match l.type with
  | LoadType.point =>
    if xi ≥ l.position then m - l.magnitude * (xi - l.position) else m
  | LoadType.udl =>
    if xi > l.start then
      let effectiveLength := min xi l.endPos - l.start
      if effectiveLength > 0 then
        let W := l.magnitude * effectiveLength
        let centroid := l.start + effectiveLength / 2
        m - W * (xi - centroid)
      else m
    else m
  | LoadType.moment => if xi ≥ l.position then m - l.magnitude else m

/-- Bending moment at node `xi`: starts from `Ra * xi`. -/
def momentAt (Ra : ℚ) (loads : List Load) (xi : ℚ) : ℚ :=
  loads.foldl (momentStep xi) (Ra * xi)

/-- `BeamAnalyzer.calculateBendingMoment` over the node grid `x`. -/
def calculateBendingMoment (Ra : ℚ) (loads : List Load) (x : List ℚ) : List ℚ :=
  x.map (momentAt Ra loads)

/-- `BeamAnalyzer.calculateDeflection`: curvature `M/EI`, two cumulative
integrations seeded at 0, then a linear correction
`deflection[i] -= (endDeflection/span) * x[i]` enforcing `y(L) = 0`.
The JS correction loop indexes `x[i]` for `i < deflection.length`; in the
engine both arrays have length `segments + 1`, which `zipWith` mirrors. -/
def calculateDeflection (span E I : ℚ) (segments : ℕ) (M : List ℚ) : List ℚ :=
  let EI := E * I
  let dx := span / (segments : ℚ)
  let x := linspace 0 span (segments + 1)
  let curvature := M.map (fun m => m / EI)
  let slope := cumulativeIntegral curvature dx 0
  let deflection := cumulativeIntegral slope dx 0
  let endDeflection := deflection.getD (deflection.length - 1) 0
  let correctionSlope := endDeflection / span
  List.zipWith (fun d xi => d - correctionSlope * xi) deflection x

/-- The rounded maxima block of `analyze`'s result. -/
structure MaxValues where
  shear : ℚ
  shearPosition : ℚ
  moment : ℚ
  momentPosition : ℚ
  deflection : ℚ
  deflectionPosition : ℚ
  deriving Repr, DecidableEq

/-- The echoed beam properties block of `analyze`'s result. -/
structure BeamProperties where
  span : ℚ
  E : ℚ
  I : ℚ
  EI : ℚ
  deriving Repr, DecidableEq

/-- The `AnalysisResult` record returned by `BeamAnalyzer.analyze`. -/
structure AnalysisResult where
  x : List ℚ
  shear : List ℚ
  moment : List ℚ
  deflection : List ℚ
  reactions : Reactions
  maxValues : MaxValues
  properties : BeamProperties
  deriving Repr, DecidableEq

/-- `BeamAnalyzer.analyze`: reactions → shear → moment → deflection (in mm),
then maxima via `findMaxAbs` and rounding via `roundTo`. -/
def analyze (span E I : ℚ) (segments : ℕ) (loads : List Load) : AnalysisResult :=
  let dx := span / (segments : ℚ)
  let x := linspace 0 span (segments + 1)
  let r := calculateReactions span loads
  let shear := calculateShearForce r.Ra loads x
  let moment := calculateBendingMoment r.Ra loads x
  let deflection := calculateDeflection span E I segments moment
  let deflectionMm := deflection.map (fun d => d * 1000)
  let maxShear := findMaxAbs shear dx
  let maxMoment := findMaxAbs moment dx
  let maxDeflection := findMaxAbs deflectionMm dx
  { x := x
    shear := shear
    moment := moment
    deflection := deflectionMm
    reactions := { Ra := roundTo r.Ra 4, Rb := roundTo r.Rb 4 }
    maxValues :=
      { shear := roundTo maxShear.absMax 4
        shearPosition := roundTo maxShear.position 4
        moment := roundTo maxMoment.absMax 4
        momentPosition := roundTo maxMoment.position 4
        deflection := roundTo maxDeflection.absMax 4
        deflectionPosition := roundTo maxDeflection.position 4 }
    properties := { span := span, E := E, I := I, EI := E * I } }

/-- `analyzeBeam(span, loads, E, I)`: fresh analyzer with the default 500
segments, `setLoads`, then `analyze`. -/
def analyzeBeam (span : ℚ) (loads : List LoadInput) (E I : ℚ) : AnalysisResult :=
  analyze span E I 500 (setLoads span loads)

/-! ## Root finding (`solver.js`) -/

/-- Result record of `newtonRaphson`.  The JS initial `error = Infinity` is
modelled as `none`; every recorded error is `some |Δx|`. -/
structure NewtonResult where
  root : ℚ
  iterations : ℕ
  converged : Bool
  error : Option ℚ
  value : ℚ
  deriving Repr, DecidableEq

/-- The `for (let i = 0; i < maxIterations; i++)` loop of `newtonRaphson`:
`fuel` is the number of remaining passes (`maxIterations - i`), `i` the pass
index, `x` the current iterate, `iters` the last value written to
`iterations` (only updated on a Newton update, not on a zero-derivative
perturbation pass), `err` the last recorded `|Δx|`. -/
def newtonLoop (f fp : ℚ → ℚ) (tol : ℚ) :
    ℕ → ℕ → ℚ → ℕ → Option ℚ → ℚ × ℕ × Bool × Option ℚ
  | 0, _, x, iters, err => (x, iters, false, err)
  | fuel + 1, i, x, iters, err =>
    let fx := f x
    let fpx := fp x
    if |fpx| < 1 / 10 ^ 15 then
      newtonLoop f fp tol fuel (i + 1) (x + tol * 10) iters err
    else
      let xNew := x - fx / fpx
      let e := |xNew - x|
      if e < tol then (xNew, i + 1, true, some e)
      else newtonLoop f fp tol fuel (i + 1) xNew (i + 1) (some e)

/-- `newtonRaphson(f, fPrime, x0, tolerance, maxIterations)` from solver.js.
Never throws: non-convergence is reported only through `converged`. -/
def newtonRaphson (f fp : ℚ → ℚ) (x0 tol : ℚ) (maxIter : ℕ) : NewtonResult :=
  let r := newtonLoop f fp tol maxIter 0 x0 0 none
  { root := r.1, iterations := r.2.1, converged := r.2.2.1, error := r.2.2.2
    value := f r.1 }

/-- Result record of `bisection`.  `root`/`error` are `none` when
`maxIterations = 0` (the JS code would return `undefined`/`NaN`). -/
structure BisectionResult where
  root : Option ℚ
  iterations : ℕ
  converged : Bool
  error : Option ℚ
  deriving Repr, DecidableEq

/-- The halving loop of `bisection`: `fa = f a` at every entry; `mid`/`fmid`
carry the most recent midpoint and its value for the exhausted exit. -/
def bisectionLoop (f : ℚ → ℚ) (tol : ℚ) :
    ℕ → ℚ → ℚ → ℚ → ℕ → Option ℚ → Option ℚ → BisectionResult
  | 0, _, _, _, iters, mid, fmid =>
    { root := mid, iterations := iters, converged := false
      error := fmid.map (fun v => |v|) }
  | fuel + 1, a, b, fa, iters, _, _ =>
    let mid := (a + b) / 2
    let fmid := f mid
    if |fmid| < tol ∨ (b - a) / 2 < tol then
      { root := some mid, iterations := iters + 1, converged := true
        error := some |fmid| }
    else if fa * fmid < 0 then
      bisectionLoop f tol fuel a mid fa (iters + 1) (some mid) (some fmid)
    else
      bisectionLoop f tol fuel mid b fmid (iters + 1) (some mid) (some fmid)

/-- `bisection(f, a, b, tolerance, maxIterations)` from solver.js: throws
(`Except.error`) exactly when `f(a)·f(b) > 0`, else runs the halving loop. -/
def bisection (f : ℚ → ℚ) (a b tol : ℚ) (maxIter : ℕ) :
    Except String BisectionResult :=
  if f a * f b > 0 then
    Except.error "Bisection requires f(a) and f(b) to have opposite signs"
  else
    Except.ok (bisectionLoop f tol maxIter a b (f a) 0 none none)

/-! ## Spec-side definitions

These restate the specification's wording (per-load contribution sums, the
Simpson weight formula, the bisection stopping criterion, midspan mirroring,
JS-truthiness field selection) independently of the loop-shaped embeddings
above; the claim theorems relate the two. -/

/-- Spec wording: transverse force contributed by one load (Point: its
magnitude; UDL: intensity × length; Moment: none). -/
def loadForce (l : Load) : ℚ :=
  match l.type with
  | LoadType.point => l.magnitude
  | LoadType.udl => l.magnitude * (l.endPos - l.start)
  | LoadType.moment => 0

/-- Spec wording: moment about the left end contributed by one load (Point:
magnitude × position; UDL: total at its centroid; Moment: its magnitude). -/
def loadMomentAboutLeft (l : Load) : ℚ :=
  match l.type with
  | LoadType.point => l.magnitude * l.position
  | LoadType.udl =>
    l.magnitude * (l.endPos - l.start) * (l.start + (l.endPos - l.start) / 2)
  | LoadType.moment => l.magnitude

/-- Spec wording: total transverse force `ΣF` of a load list. -/
def totalForce (loads : List Load) : ℚ := (loads.map loadForce).sum

/-- Spec wording: total moment `ΣM` about the left end of a load list. -/
def momentAboutLeft (loads : List Load) : ℚ :=
  (loads.map loadMomentAboutLeft).sum

/-- Cantilever reaction record `(Ra, Rb, Ma, Mb)`. -/
structure Reactions4 where
  Ra : ℚ
  Rb : ℚ
  Ma : ℚ
  Mb : ℚ
  deriving Repr, DecidableEq

/-- Modelled from the spec: the Cantilever branch of the five-family
reaction dispatch is not under `src/` — the `structural.js` present there
implements only the SimplySupported case, while the structural page variant
imports `SUPPORT_TYPES`/`getSupportTypeOptions` from an extended structural
module that is missing.  Spec §4.2: "*Cantilever*: Ra = ΣF (all load resists
at the fixed end); Ma = −ΣM (about the fixed end); Rb=Mb=0."  The force and
moment sums are accumulated per load exactly as in the SimplySupported
branch that is in `src/`. -/
def calculateReactionsCantilever (loads : List Load) : Reactions4 :=
  let acc := loads.foldl reactionStep (0, 0)
  { Ra := acc.1, Rb := 0, Ma := -acc.2, Mb := 0 }

/-- Spec wording: the mirror image of a load about midspan of a beam of
length `L` (Point/Moment position `L - p`; UDL range `[L-end, L-start]`). -/
def mirrorLoad (L : ℚ) (l : Load) : Load :=
  match l.type with
  | LoadType.point => { l with position := L - l.position }
  | LoadType.udl => { l with start := L - l.endPos, endPos := L - l.start }
  | LoadType.moment => { l with position := L - l.position }

/-- Spec wording (Simpson weights): sum of the odd-indexed interior sample
values `y[1], y[3], …` strictly below index `n`. -/
def oddInteriorSum (y : List ℚ) (n : ℕ) : ℚ :=
  ∑ i ∈ Finset.range n, if i % 2 = 1 then y.getD i 0 else 0

/-- Spec wording (Simpson weights): sum of the even-indexed interior sample
values `y[2], y[4], …` strictly below index `n`. -/
def evenInteriorSum (y : List ℚ) (n : ℕ) : ℚ :=
  ∑ i ∈ Finset.range n, if i % 2 = 0 ∧ i ≠ 0 then y.getD i 0 else 0

/-- Spec wording: the closed Simpson 1/3 value
`(dx/3)·(y[0] + y[n] + 4·odd interior + 2·even interior)`. -/
def simpsonValue (y : List ℚ) (n : ℕ) (dx : ℚ) : ℚ :=
  (dx / 3) * (y.getD 0 0 + y.getD n 0
    + 4 * oddInteriorSum y n + 2 * evenInteriorSum y n)

/-- Spec wording: whether bisection on `[a, b]` meets its stopping criterion
(`|f(mid)| <` tolerance, or half-width `<` tolerance) within `fuel`
halving steps. -/
def bisectionStops (f : ℚ → ℚ) (tol : ℚ) : ℕ → ℚ → ℚ → Bool
  | 0, _, _ => false
  | fuel + 1, a, b =>
    let mid := (a + b) / 2
    let fmid := f mid
    if |fmid| < tol ∨ (b - a) / 2 < tol then true
    else if f a * fmid < 0 then bisectionStops f tol fuel a mid
    else bisectionStops f tol fuel mid b

/-- Spec wording (JS truthiness chain): the first present, non-zero field
among a list of optional fields, else 0. -/
def firstNonzero : List (Option ℚ) → ℚ
  | [] => 0
  | some x :: rest => if x = 0 then firstNonzero rest else x
  | none :: rest => firstNonzero rest

/-! ## Helper lemmas -/

/-- The reaction accumulation loop computes the pair of spec-side sums. -/
lemma foldl_reactionStep (loads : List Load) (p : ℚ × ℚ) :
    loads.foldl reactionStep p
      = (p.1 + totalForce loads, p.2 + momentAboutLeft loads) := by
  induction loads generalizing p with
  | nil => simp [totalForce, momentAboutLeft]
  | cons l ls ih =>
    obtain ⟨t, mag, pos, s, e⟩ := l
    cases t <;>
      simp only [List.foldl_cons, ih, reactionStep, totalForce, momentAboutLeft,
        loadForce, loadMomentAboutLeft, List.map_cons, List.sum_cons] <;>
      exact Prod.ext (by ring) (by ring)

/-- `Rb` of the src reaction computation, in spec terms. -/
lemma calculateReactions_Rb (span : ℚ) (loads : List Load) :
    (calculateReactions span loads).Rb
      = if span = 0 then 0 else momentAboutLeft loads / span := by
  simp only [calculateReactions, foldl_reactionStep, zero_add, ne_eq, ite_not]

/-- `Ra` of the src reaction computation, in spec terms. -/
lemma calculateReactions_Ra (span : ℚ) (loads : List Load) :
    (calculateReactions span loads).Ra
      = totalForce loads - (calculateReactions span loads).Rb := by
  simp only [calculateReactions, foldl_reactionStep, zero_add]

/-! ## Claim theorems -/

/-- C1.  For every beam and every load list, `calculateReactions` returns
`Rb = ΣM / span` — where a Point load contributes `magnitude × position`, a
UniformlyDistributed load contributes `intensity × length` at its centroid,
and a Moment load adds its magnitude to the moment sum only — defaulting
`Rb` to 0 when `span = 0`, and `Ra = ΣF − Rb`. -/
theorem calculateReactions_simply_supported (span : ℚ) (loads : List Load) :
    (calculateReactions span loads).Rb
        = (if span = 0 then 0 else momentAboutLeft loads / span)
      ∧ (calculateReactions span loads).Ra
        = totalForce loads - (calculateReactions span loads).Rb :=
  ⟨calculateReactions_Rb span loads, calculateReactions_Ra span loads⟩

/-- C2.  For every beam of the Cantilever boundary-condition family, the
reaction computation returns `Ra = ΣF`, `Ma = −ΣM` about the fixed end, and
`Rb = Mb = 0` (its reaction formula is modelled from the spec because the
five-family dispatch module is not under `src/`; the per-load accumulation
`reactionStep` is the one from the `src/` SimplySupported branch). -/
theorem calculateReactions_cantilever (loads : List Load) :
    (calculateReactionsCantilever loads).Ra = totalForce loads
      ∧ (calculateReactionsCantilever loads).Ma = -momentAboutLeft loads
      ∧ (calculateReactionsCantilever loads).Rb = 0
      ∧ (calculateReactionsCantilever loads).Mb = 0 := by
  simp [calculateReactionsCantilever, foldl_reactionStep]

/-- Mirroring a load about midspan preserves its transverse force. -/
lemma loadForce_mirrorLoad (L : ℚ) (l : Load) :
    loadForce (mirrorLoad L l) = loadForce l := by
  obtain ⟨t, mag, pos, s, e⟩ := l
  cases t with
  | point => simp [mirrorLoad, loadForce]
  | udl => simp [mirrorLoad, loadForce]
  | moment => simp [mirrorLoad, loadForce]

/-- For a non-Moment load, the mirrored load's moment about the left end is
`L·F − M` where `F`, `M` are the original force and moment. -/
lemma loadMomentAboutLeft_mirrorLoad (L : ℚ) (l : Load)
    (h : l.type ≠ LoadType.moment) :
    loadMomentAboutLeft (mirrorLoad L l)
      = L * loadForce l - loadMomentAboutLeft l := by
  obtain ⟨t, mag, pos, s, e⟩ := l
  cases t with
  | point => simp [mirrorLoad, loadForce, loadMomentAboutLeft]; ring
  | udl => simp [mirrorLoad, loadForce, loadMomentAboutLeft]; ring
  | moment => exact absurd rfl h

/-- Total force of the mirrored load list. -/
lemma totalForce_map_mirrorLoad (L : ℚ) (loads : List Load) :
    totalForce (loads.map (mirrorLoad L)) = totalForce loads := by
  induction loads with
  | nil => rfl
  | cons l ls ih =>
    simp only [totalForce, List.map_cons, List.sum_cons] at ih ⊢
    rw [loadForce_mirrorLoad, ih]

/-- Total left-end moment of the mirrored load list, when no Moment loads
are present. -/
lemma momentAboutLeft_map_mirrorLoad (L : ℚ) (loads : List Load)
    (h : ∀ l ∈ loads, l.type ≠ LoadType.moment) :
    momentAboutLeft (loads.map (mirrorLoad L))
      = L * totalForce loads - momentAboutLeft loads := by
  induction loads with
  | nil => simp [momentAboutLeft, totalForce]
  | cons l ls ih =>
    simp only [momentAboutLeft, totalForce, List.map_cons, List.sum_cons] at ih ⊢
    rw [loadMomentAboutLeft_mirrorLoad L l (h l (List.mem_cons_self l ls)),
      ih (fun x hx => h x (List.mem_cons_of_mem l hx))]
    ring

/-- C8.  For every simply-supported beam of span `L > 0` whose load list is
symmetric about midspan (the mirrored list is a permutation of the original)
and contains no Moment loads, `calculateReactions` yields `Ra = Rb`. -/
theorem symmetric_loads_reactions_eq (L : ℚ) (loads : List Load)
    (hL : 0 < L) (hperm : (loads.map (mirrorLoad L)).Perm loads)
    (hnm : ∀ l ∈ loads, l.type ≠ LoadType.moment) :
    (calculateReactions L loads).Ra = (calculateReactions L loads).Rb := by
  have hM : momentAboutLeft loads = L * totalForce loads - momentAboutLeft loads := by
    have := momentAboutLeft_map_mirrorLoad L loads hnm
    rw [← this]
    exact ((hperm.map loadMomentAboutLeft).sum_eq).symm
  have hL0 : L ≠ 0 := ne_of_gt hL
  rw [calculateReactions_Ra, calculateReactions_Rb, if_neg hL0]
  have h2 : momentAboutLeft loads = L * totalForce loads / 2 := by
    field_simp
    linarith [hM]
  rw [h2]
  field_simp
  ring

/-- Witness for C8: span 6 with two mirrored 10 kN point loads at 2 m and
4 m; both reactions equal. -/
theorem symmetric_loads_reactions_eq_witness :
    (0 : ℚ) < 6
      ∧ (calculateReactions 6
          [⟨LoadType.point, 10, 2, 0, 6⟩, ⟨LoadType.point, 10, 4, 0, 6⟩]).Ra
        = (calculateReactions 6
          [⟨LoadType.point, 10, 2, 0, 6⟩, ⟨LoadType.point, 10, 4, 0, 6⟩]).Rb := by
  refine ⟨by norm_num, symmetric_loads_reactions_eq 6 _ (by norm_num) ?_ ?_⟩
  · have : ([⟨LoadType.point, 10, 2, 0, 6⟩, ⟨LoadType.point, 10, 4, 0, 6⟩] :
        List Load).map (mirrorLoad 6)
        = [⟨LoadType.point, 10, 4, 0, 6⟩, ⟨LoadType.point, 10, 2, 0, 6⟩] := by
      simp [mirrorLoad]
      norm_num
    rw [this]
    exact List.Perm.swap _ _ _
  · intro l hl
    simp only [List.mem_cons, List.not_mem_nil, or_false] at hl
    rcases hl with h | h <;> subst h <;> simp

/-- The JS `||` chain is the "first present non-zero field" selection. -/
lemma jsOr_firstNonzero (v : Option ℚ) (rest : List (Option ℚ)) :
    jsOr v (firstNonzero rest) = firstNonzero (v :: rest) := by
  cases v <;> simp [jsOr, firstNonzero]

/-- C10.  `addLoad` appends a load whose magnitude is the first truthy field
among `magnitude, P, w, M` (a present 0 falls through), whose position is the
first truthy field among `position, a` (a stated position 0 is
indistinguishable from an absent one), whose start defaults to 0, and whose
end defaults to the beam's span whenever the `end` field is absent or 0. -/
theorem addLoad_normalization (span : ℚ) (loads : List Load) (l : LoadInput) :
    addLoad span loads l = loads ++ [normalizeLoad span l]
      ∧ (normalizeLoad span l).magnitude = firstNonzero [l.magnitude, l.P, l.w, l.M]
      ∧ (normalizeLoad span l).position = firstNonzero [l.position, l.a]
      ∧ (normalizeLoad span l).start = l.start.getD 0
      ∧ (l.endP = none ∨ l.endP = some 0 → (normalizeLoad span l).endPos = span)
      ∧ (∀ x : ℚ, l.endP = some x → x ≠ 0 → (normalizeLoad span l).endPos = x) := by
  refine ⟨rfl, ?_, ?_, ?_, ?_, ?_⟩
  · show jsOr l.magnitude (jsOr l.P (jsOr l.w (jsOr l.M 0))) = _
    rw [show (0 : ℚ) = firstNonzero [] from rfl,
      jsOr_firstNonzero, jsOr_firstNonzero, jsOr_firstNonzero, jsOr_firstNonzero]
  · show jsOr l.position (jsOr l.a 0) = _
    rw [show (0 : ℚ) = firstNonzero [] from rfl,
      jsOr_firstNonzero, jsOr_firstNonzero]
  · show jsOr l.start 0 = _
    cases h : l.start with
    | none => rfl
    | some x =>
      by_cases hx : x = 0 <;> simp [jsOr, hx]
  · rintro (h | h) <;> simp [normalizeLoad, h, jsOr]
  · intro x h hx
    simp [normalizeLoad, h, jsOr, hx]

/-- Witness for C10: a load with `magnitude = 0`, `P` absent, `w = 2`,
`position` absent, `a = 0`, `end = 0` on a span-6 beam: the stored magnitude
is 2, the position 0, the end the full span. -/
theorem addLoad_normalization_witness :
    (({ magnitude := some 0, w := some 2, a := some 0, endP := some 0 }
        : LoadInput).endP = none
      ∨ ({ magnitude := some 0, w := some 2, a := some 0, endP := some 0 }
        : LoadInput).endP = some 0)
    ∧ (normalizeLoad 6
        { magnitude := some 0, w := some 2, a := some 0, endP := some 0 }).magnitude
      = firstNonzero [some 0, none, some 2, none]
    ∧ (normalizeLoad 6
        { magnitude := some 0, w := some 2, a := some 0, endP := some 0 }).endPos
      = 6 := by
  refine ⟨Or.inr rfl, ?_, ?_⟩
  · exact (addLoad_normalization 6 []
      { magnitude := some 0, w := some 2, a := some 0, endP := some 0 }).2.1
  · exact (addLoad_normalization 6 []
      { magnitude := some 0, w := some 2, a := some 0, endP := some 0 }).2.2.2.2.1
      (Or.inr rfl)

/-! ### Cumulative integral lemmas (C9) -/

/-- Length of the auxiliary scan. -/
lemma cumulativeIntegralAux_length (dx : ℚ) :
    ∀ (rest : List ℚ) (prev acc : ℚ),
      (cumulativeIntegralAux dx prev acc rest).length = rest.length := by
  intro rest
  induction rest with
  | nil => intro prev acc; rfl
  | cons yi ys ih => intro prev acc; simp [cumulativeIntegralAux, ih]

/-- For a nonempty sample list the scan has the same length as the input. -/
lemma cumulativeIntegral_length (y : List ℚ) (dx init : ℚ) (h : y ≠ []) :
    (cumulativeIntegral y dx init).length = y.length := by
  cases y with
  | nil => exact absurd rfl h
  | cons y0 rest => simp [cumulativeIntegral, cumulativeIntegralAux_length]

/-- Unfolding the scan over its first segment. -/
lemma cumulativeIntegral_cons_cons (y0 y1 : ℚ) (rest : List ℚ) (dx init : ℚ) :
    cumulativeIntegral (y0 :: y1 :: rest) dx init
      = init :: cumulativeIntegral (y1 :: rest) dx (init + dx / 2 * (y0 + y1)) := rfl

/-- Element `i ≥ 1` of the scan is element `i-1` plus the trapezoidal
increment of segment `[i-1, i]`. -/
lemma cumulativeIntegral_getD_succ (y : List ℚ) (dx init : ℚ) :
    ∀ i : ℕ, i + 1 < y.length →
      (cumulativeIntegral y dx init).getD (i + 1) 0
        = (cumulativeIntegral y dx init).getD i 0
          + dx / 2 * (y.getD i 0 + y.getD (i + 1) 0) := by
  induction y generalizing init with
  | nil => intro i hi; simp at hi
  | cons y0 ys ih =>
    intro i hi
    cases ys with
    | nil => simp at hi
    | cons y1 rest =>
      rw [cumulativeIntegral_cons_cons]
      cases i with
      | zero => simp [cumulativeIntegral]
      | succ k =>
        have hk : k + 1 < (y1 :: rest).length := by
          simpa using Nat.succ_lt_succ_iff.mp hi
        simp only [List.getD_cons_succ]
        exact ih _ k hk

/-- C9 counterexample: on the empty sample array the scan still returns the
one-element list `[initialValue]`, so its length differs from `y`'s. -/
theorem cumulativeIntegral_empty_length_ne :
    (cumulativeIntegral ([] : List ℚ) 1 5).length ≠ ([] : List ℚ).length := by
  simp [cumulativeIntegral]

/-- C9 (amended to nonempty input).  For every nonempty sample array `y`,
step `dx` and seed, `cumulativeIntegral` returns a list of the same length
as `y`, whose element 0 is the seed and whose element `i ≥ 1` equals element
`i-1` plus the trapezoidal increment `(dx/2)·(y[i-1] + y[i])`. -/
theorem cumulativeIntegral_running_trapezoid (y : List ℚ) (dx init : ℚ)
    (h : y ≠ []) :
    (cumulativeIntegral y dx init).length = y.length
      ∧ (cumulativeIntegral y dx init).getD 0 0 = init
      ∧ ∀ i : ℕ, 1 ≤ i → i < y.length →
          (cumulativeIntegral y dx init).getD i 0
            = (cumulativeIntegral y dx init).getD (i - 1) 0
              + dx / 2 * (y.getD (i - 1) 0 + y.getD i 0) := by
  refine ⟨cumulativeIntegral_length y dx init h, ?_, ?_⟩
  · cases y with
    | nil => exact absurd rfl h
    | cons y0 rest => rfl
  · intro i h1 hi
    obtain ⟨k, rfl⟩ : ∃ k, i = k + 1 := ⟨i - 1, by omega⟩
    simpa using cumulativeIntegral_getD_succ y dx init k hi

/-- Witness for C9: `y = [1, 2]`, `dx = 2`, seed 3 gives `[3, 6]`. -/
theorem cumulativeIntegral_running_trapezoid_witness :
    ([(1 : ℚ), 2] ≠ [])
      ∧ (cumulativeIntegral [(1 : ℚ), 2] 2 3).length = 2
      ∧ (cumulativeIntegral [(1 : ℚ), 2] 2 3).getD 1 0
        = (cumulativeIntegral [(1 : ℚ), 2] 2 3).getD 0 0
          + 2 / 2 * (([(1 : ℚ), 2]).getD 0 0 + ([(1 : ℚ), 2]).getD 1 0) := by
  have h := cumulativeIntegral_running_trapezoid [(1 : ℚ), 2] 2 3 (by simp)
  exact ⟨by simp, h.1, h.2.2 1 le_rfl (by norm_num)⟩

/-! ### Simpson's rule lemmas (C5) -/

/-- The stride-2 loop sums the entries of `y` at indices `s, s+2, …` below
`N`, scaled by the weight `c`. -/
lemma strideSum_eq (y : List ℚ) (c : ℚ) :
    ∀ k N s : ℕ, N - s ≤ k →
      strideSum y c s N
        = c * ∑ i ∈ Finset.Ico s N,
            (if (i - s) % 2 = 0 then y.getD i 0 else 0) := by
  intro k
  induction k with
  | zero =>
    intro N s hk
    rw [strideSum, dif_neg (by omega), Finset.Ico_eq_empty (by omega)]
    simp
  | succ k ih =>
    intro N s hk
    rw [strideSum]
    by_cases hs : s < N
    · rw [dif_pos hs, Finset.sum_eq_sum_Ico_succ_bot hs]
      have hshift :
          (∑ i ∈ Finset.Ico (s + 1) N,
              (if (i - s) % 2 = 0 then y.getD i 0 else 0))
            = ∑ i ∈ Finset.Ico (s + 2) N,
                (if (i - (s + 2)) % 2 = 0 then y.getD i 0 else 0) := by
        by_cases h1 : s + 1 < N
        · rw [Finset.sum_eq_sum_Ico_succ_bot h1]
          have h10 : (if (s + 1 - s) % 2 = 0 then y.getD (s + 1) 0 else 0) = 0 := by
            have : (s + 1 - s) % 2 = 1 := by omega
            simp [this]
          rw [h10, zero_add]
          refine Finset.sum_congr rfl fun i hi => ?_
          have h2i : s + 2 ≤ i := (Finset.mem_Ico.mp hi).1
          have : (i - s) % 2 = (i - (s + 2)) % 2 := by omega
          rw [this]
        · rw [Finset.Ico_eq_empty (by omega), Finset.Ico_eq_empty (by omega)]
          simp
      rw [hshift, ih N (s + 2) (by omega)]
      simp
      ring
    · rw [dif_neg hs, Finset.Ico_eq_empty (by omega)]
      simp

/-- The stride-2 loop starting at index 1 is `c ×` the odd-indexed interior
sum of the spec's Simpson weights. -/
lemma strideSum_one_eq (y : List ℚ) (c : ℚ) (N : ℕ) :
    strideSum y c 1 N = c * oddInteriorSum y N := by
  rw [strideSum_eq y c N N 1 (by omega), oddInteriorSum]
  congr 1
  rw [Finset.range_eq_Ico]
  by_cases h0 : 0 < N
  · rw [Finset.sum_eq_sum_Ico_succ_bot h0]
    have : (if 0 % 2 = 1 then y.getD 0 0 else 0) = 0 := by norm_num
    rw [this, zero_add]
    refine Finset.sum_congr rfl fun i hi => ?_
    have h1i : 1 ≤ i := (Finset.mem_Ico.mp hi).1
    by_cases hc : i % 2 = 1
    · rw [if_pos (show (i - 1) % 2 = 0 by omega), if_pos hc]
    · rw [if_neg (show ¬(i - 1) % 2 = 0 by omega), if_neg hc]
  · rw [Finset.Ico_eq_empty (by omega), Finset.Ico_eq_empty (by omega)]
    simp

/-- The stride-2 loop starting at index 2 is `c ×` the even-indexed interior
sum of the spec's Simpson weights. -/
lemma strideSum_two_eq (y : List ℚ) (c : ℚ) (N : ℕ) :
    strideSum y c 2 N = c * evenInteriorSum y N := by
  rw [strideSum_eq y c N N 2 (by omega), evenInteriorSum]
  congr 1
  rw [Finset.range_eq_Ico]
  by_cases h0 : 0 < N
  · rw [Finset.sum_eq_sum_Ico_succ_bot h0]
    have hz : (if 0 % 2 = 0 ∧ 0 ≠ 0 then y.getD 0 0 else 0) = 0 := by norm_num
    rw [hz, zero_add]
    by_cases h1 : 1 < N
    · rw [Finset.sum_eq_sum_Ico_succ_bot h1]
      have ho : (if 1 % 2 = 0 ∧ 1 ≠ 0 then y.getD 1 0 else 0) = 0 := by norm_num
      rw [ho, zero_add]
      refine Finset.sum_congr rfl fun i hi => ?_
      have h2i : 2 ≤ i := (Finset.mem_Ico.mp hi).1
      by_cases hc : i % 2 = 0
      · rw [if_pos (show (i - 2) % 2 = 0 by omega),
          if_pos (show i % 2 = 0 ∧ i ≠ 0 by omega)]
      · rw [if_neg (show ¬(i - 2) % 2 = 0 by omega),
          if_neg (show ¬(i % 2 = 0 ∧ i ≠ 0) by omega)]
    · rw [Finset.Ico_eq_empty (by omega), Finset.Ico_eq_empty (by omega)]
      simp
  · rw [Finset.Ico_eq_empty (by omega), Finset.Ico_eq_empty (by omega)]
    simp

/-- C5.  `simpsonsRule` fails on fewer than 3 points; on an even interval
count `n = y.length - 1` it returns the standard Simpson weights
`(dx/3)·(y[0] + y[n] + 4·odd interior + 2·even interior)`; on an odd
interval count it returns Simpson's rule over the first `n-1` intervals plus
the trapezoid `(dx/2)·(y[n-1] + y[n])` for the final segment. -/
theorem simpsonsRule_weights (y : List ℚ) (dx : ℚ) :
    (y.length < 3 → ∃ msg, simpsonsRule y dx = Except.error msg)
      ∧ (3 ≤ y.length → (y.length - 1) % 2 = 0 →
          simpsonsRule y dx = Except.ok (simpsonValue y (y.length - 1) dx))
      ∧ (3 ≤ y.length → (y.length - 1) % 2 = 1 →
          simpsonsRule y dx
            = Except.ok (simpsonValue y.dropLast (y.length - 1 - 1) dx
                + (dx / 2) * (y.getD (y.length - 1 - 1) 0
                  + y.getD (y.length - 1) 0))) := by
  refine ⟨?_, ?_, ?_⟩
  · intro hlen
    exact ⟨"Simpson's rule requires at least 3 points",
      by simp only [simpsonsRule, if_pos (show y.length - 1 < 2 by omega)]⟩
  · intro hlen hpar
    simp only [simpsonsRule, if_neg (show ¬y.length - 1 < 2 by omega), hpar,
      ne_eq, not_true_eq_false, if_false, ite_false, not_false_eq_true, ite_true]
    rw [strideSum_one_eq, strideSum_two_eq, simpsonValue]
  · intro hlen hpar
    simp only [simpsonsRule, if_neg (show ¬y.length - 1 < 2 by omega), hpar,
      ne_eq, not_false_eq_true, if_true, ite_true, one_ne_zero]
    rw [strideSum_one_eq, strideSum_two_eq, simpsonValue]

/-- Witness for C5: the three branches at `[1,2]` (too short), `[0,1,4]`
(even interval count), and `[0,1,4,9]` (odd interval count). -/
theorem simpsonsRule_weights_witness :
    (([(1 : ℚ), 2]).length < 3 ∧ ∃ msg, simpsonsRule [(1 : ℚ), 2] 1 = Except.error msg)
      ∧ (3 ≤ ([(0 : ℚ), 1, 4]).length ∧ ([(0 : ℚ), 1, 4]).length - 1 = 2
          ∧ simpsonsRule [(0 : ℚ), 1, 4] 1 = Except.ok (simpsonValue [(0 : ℚ), 1, 4] 2 1))
      ∧ (([(0 : ℚ), 1, 4, 9]).length - 1 = 3
          ∧ simpsonsRule [(0 : ℚ), 1, 4, 9] 1
            = Except.ok (simpsonValue ([(0 : ℚ), 1, 4, 9]).dropLast 2 1
                + (1 / 2) * (([(0 : ℚ), 1, 4, 9]).getD 2 0
                  + ([(0 : ℚ), 1, 4, 9]).getD 3 0))) := by
  refine ⟨⟨by norm_num, (simpsonsRule_weights [(1 : ℚ), 2] 1).1 (by norm_num)⟩,
    ⟨by norm_num, by norm_num,
      (simpsonsRule_weights [(0 : ℚ), 1, 4] 1).2.1 (by norm_num) (by norm_num)⟩,
    ⟨by norm_num,
      (simpsonsRule_weights [(0 : ℚ), 1, 4, 9] 1).2.2 (by norm_num) (by norm_num)⟩⟩

/-! ### Newton-Raphson lemmas (C6) -/

/-- Loop invariant of `newtonLoop`: the recorded iteration count never
exceeds `maxIter`, and on exit the `converged` flag is set exactly when the
recorded error is a Newton update below tolerance. -/
lemma newtonLoop_invariant (f fp : ℚ → ℚ) (tol : ℚ) (maxIter : ℕ) :
    ∀ (fuel i : ℕ) (x : ℚ) (iters : ℕ) (err : Option ℚ),
      i + fuel ≤ maxIter → iters ≤ maxIter →
      (err = none ∨ ∃ e, err = some e ∧ ¬e < tol) →
      (newtonLoop f fp tol fuel i x iters err).2.1 ≤ maxIter
        ∧ ((newtonLoop f fp tol fuel i x iters err).2.2.1 = true
            ↔ ∃ e, (newtonLoop f fp tol fuel i x iters err).2.2.2 = some e
                ∧ e < tol) := by
  intro fuel
  induction fuel with
  | zero =>
    intro i x iters err hk hiters herr
    have hne : ¬∃ e, err = some e ∧ e < tol := by
      rintro ⟨e, he, hlt⟩
      rcases herr with h | ⟨e', he', hge⟩
      · rw [h] at he; exact Option.noConfusion he
      · rw [he'] at he; injection he with h2; exact hge (by rwa [h2])
    simp only [newtonLoop]
    exact ⟨hiters, by simp [hne]⟩
  | succ k ih =>
    intro i x iters err hk hiters herr
    simp only [newtonLoop]
    by_cases hflat : |fp x| < 1 / 10 ^ 15
    · rw [if_pos hflat]
      exact ih (i + 1) (x + tol * 10) iters err (by omega) hiters herr
    · rw [if_neg hflat]
      by_cases hconv : |x - f x / fp x - x| < tol
      · rw [if_pos hconv]
        refine ⟨by simp; omega, ⟨fun _ => ⟨_, rfl, hconv⟩, fun _ => rfl⟩⟩
      · rw [if_neg hconv]
        exact ih (i + 1) (x - f x / fp x) (i + 1) (some |x - f x / fp x - x|)
          (by omega) (by omega) (Or.inr ⟨_, rfl, hconv⟩)

/-- C6.  `newtonRaphson` never escapes through an exception: it is a total
function whose iteration count is at most `maxIterations`; a pass with
`|f'(x)| < 1e-15` perturbs `x` by `tolerance × 10` and retries, consuming an
iteration slot without a Newton update; and `converged = true` exactly when
the recorded Newton update had `|Δx| < tolerance` — non-convergence is
reported only through the flag. -/
theorem newtonRaphson_convergence_flag (f fp : ℚ → ℚ) (x0 tol : ℚ)
    (maxIter : ℕ) :
    (newtonRaphson f fp x0 tol maxIter).iterations ≤ maxIter
      ∧ ((newtonRaphson f fp x0 tol maxIter).converged = true
          ↔ ∃ e, (newtonRaphson f fp x0 tol maxIter).error = some e ∧ e < tol)
      ∧ (∀ (fuel i : ℕ) (x : ℚ) (iters : ℕ) (err : Option ℚ),
          |fp x| < 1 / 10 ^ 15 →
          newtonLoop f fp tol (fuel + 1) i x iters err
            = newtonLoop f fp tol fuel (i + 1) (x + tol * 10) iters err) := by
  have h := newtonLoop_invariant f fp tol maxIter maxIter 0 x0 0 none
    (by omega) (by omega) (Or.inl rfl)
  refine ⟨h.1, h.2, ?_⟩
  intro fuel i x iters err hflat
  rw [newtonLoop, if_pos hflat]

/-- Witness for C6: with the constant-zero derivative, tolerance 1 and a
single iteration slot, the first pass is a perturbation pass, and the run
reports non-convergence only through the flag. -/
theorem newtonRaphson_convergence_flag_witness :
    |(fun _ : ℚ => (0 : ℚ)) 0| < 1 / 10 ^ 15
      ∧ newtonLoop (fun _ : ℚ => 0) (fun _ : ℚ => 0) 1 1 0 0 0 none
        = newtonLoop (fun _ : ℚ => 0) (fun _ : ℚ => 0) 1 0 1 (0 + 1 * 10) 0 none
      ∧ (newtonRaphson (fun _ : ℚ => 0) (fun _ : ℚ => 0) 0 1 1).iterations ≤ 1 := by
  refine ⟨by norm_num,
    (newtonRaphson_convergence_flag (fun _ : ℚ => 0) (fun _ : ℚ => 0) 0 1 1).2.2
      0 0 0 0 none (by norm_num),
    (newtonRaphson_convergence_flag (fun _ : ℚ => 0) (fun _ : ℚ => 0) 0 1 1).1⟩

/-! ### Bisection lemmas (C7) -/

/-- The `converged` flag of the halving loop equals the spec's "stopping
criterion met within the remaining iterations" predicate (the carried `fa`
always equals `f a`). -/
lemma bisectionLoop_converged (f : ℚ → ℚ) (tol : ℚ) :
    ∀ (fuel : ℕ) (a b fa : ℚ) (iters : ℕ) (mid fmid : Option ℚ),
      fa = f a →
      (bisectionLoop f tol fuel a b fa iters mid fmid).converged
        = bisectionStops f tol fuel a b := by
  intro fuel
  induction fuel with
  | zero => intro a b fa iters mid fmid _; rfl
  | succ k ih =>
    intro a b fa iters mid fmid hfa
    simp only [bisectionLoop, bisectionStops]
    by_cases hstop : |f ((a + b) / 2)| < tol ∨ (b - a) / 2 < tol
    · rw [if_pos hstop, if_pos hstop]
    · rw [if_neg hstop, if_neg hstop]
      by_cases hsign : f a * f ((a + b) / 2) < 0
      · rw [hfa, if_pos hsign, if_pos hsign]
        exact ih a ((a + b) / 2) (f a) (iters + 1) _ _ rfl
      · rw [hfa, if_neg hsign, if_neg hsign]
        exact ih ((a + b) / 2) b (f ((a + b) / 2)) iters.succ _ _ rfl

/-- C7.  `bisection` raises a domain error exactly when `f(a)·f(b) > 0`;
with a valid bracket it returns a result (no exception) whose `converged`
flag is true exactly when the stopping criterion — `|f(mid)|` below
tolerance or half-interval width below tolerance — is met within
`maxIterations` halving steps, and false when the iterations are exhausted
without meeting it. -/
theorem bisection_bracket_and_convergence (f : ℚ → ℚ) (a b tol : ℚ)
    (maxIter : ℕ) :
    ((∃ msg, bisection f a b tol maxIter = Except.error msg) ↔ f a * f b > 0)
      ∧ (f a * f b ≤ 0 → ∃ r, bisection f a b tol maxIter = Except.ok r)
      ∧ (∀ r, bisection f a b tol maxIter = Except.ok r →
          (r.converged = true ↔ bisectionStops f tol maxIter a b = true)) := by
  refine ⟨⟨?_, ?_⟩, ?_, ?_⟩
  · rintro ⟨msg, hmsg⟩
    by_contra hpos
    rw [bisection, if_neg hpos] at hmsg
    exact Except.noConfusion hmsg
  · intro hpos
    exact ⟨_, by rw [bisection, if_pos hpos]⟩
  · intro hle
    exact ⟨bisectionLoop f tol maxIter a b (f a) 0 none none,
      by rw [bisection, if_neg (not_lt.mpr hle)]⟩
  · intro r hr
    by_cases hpos : f a * f b > 0
    · rw [bisection, if_pos hpos] at hr
      exact Except.noConfusion hr
    · rw [bisection, if_neg hpos] at hr
      injection hr with hr
      rw [← hr, bisectionLoop_converged f tol maxIter a b (f a) 0 none none rfl]

/-- Witness for C7: `f = id` on `[-1, 1]` with tolerance 1 and one
iteration — the bracket is valid, the call returns `ok`, and the loop
converges on the first midpoint. -/
theorem bisection_bracket_and_convergence_witness :
    ((fun x : ℚ => x) (-1) * (fun x : ℚ => x) 1 ≤ 0)
      ∧ (∃ r, bisection (fun x : ℚ => x) (-1) 1 1 1 = Except.ok r)
      ∧ ∀ r, bisection (fun x : ℚ => x) (-1) 1 1 1 = Except.ok r →
          (r.converged = true ↔ bisectionStops (fun x : ℚ => x) 1 1 (-1) 1 = true) := by
  refine ⟨by norm_num, ?_, ?_⟩
  · exact (bisection_bracket_and_convergence (fun x : ℚ => x) (-1) 1 1 1).2.1
      (by norm_num)
  · exact (bisection_bracket_and_convergence (fun x : ℚ => x) (-1) 1 1 1).2.2

/-! ### List access helpers -/

/-- `getD` through a `map`, at an in-bounds index. -/
lemma getD_map (f : ℚ → ℚ) (l : List ℚ) (i : ℕ) (hi : i < l.length) (d d' : ℚ) :
    (l.map f).getD i d = f (l.getD i d') := by
  rw [List.getD_eq_getElem?_getD, List.getD_eq_getElem?_getD, List.getElem?_map,
    List.getElem?_eq_getElem hi]
  rfl

/-- `getD` through a `zipWith`, at an in-bounds index. -/
lemma getD_zipWith (f : ℚ → ℚ → ℚ) (l1 l2 : List ℚ) (i : ℕ)
    (h1 : i < l1.length) (h2 : i < l2.length) (d : ℚ) :
    (List.zipWith f l1 l2).getD i d = f (l1.getD i d) (l2.getD i d) := by
  rw [List.getD_eq_getElem?_getD, List.getD_eq_getElem?_getD,
    List.getD_eq_getElem?_getD, List.getElem?_zipWith,
    List.getElem?_eq_getElem h1, List.getElem?_eq_getElem h2]
  rfl

/-- Length of `linspace` for at least two points. -/
lemma linspace_length (s e : ℚ) (n : ℕ) (h : 2 ≤ n) :
    (linspace s e n).length = n := by
  rw [linspace, if_neg (by omega)]
  simp

/-- Node `i` of `linspace` for at least two points. -/
lemma linspace_getD (s e : ℚ) (n i : ℕ) (h2 : 2 ≤ n) (hi : i < n) (d : ℚ) :
    (linspace s e n).getD i d = s + (i : ℚ) * ((e - s) / ((n : ℚ) - 1)) := by
  rw [linspace, if_neg (by omega), List.getD_eq_getElem?_getD,
    List.getElem?_map, List.getElem?_range hi]
  rfl

/-- Element 0 of the cumulative integral is the seed. -/
lemma cumulativeIntegral_getD_zero (y : List ℚ) (dx init d : ℚ) :
    (cumulativeIntegral y dx init).getD 0 d = init := by
  cases y <;> rfl

/-- C4.  For a beam with `span > 0`, `E > 0`, `I > 0`, `segmentCount ≥ 1`
(and a moment array of matching node count), `calculateDeflection` — the
`M/EI` curvature double-integrated by the cumulative-integral primitive with
both seeds 0, minus a correction proportional to position — returns an array
with value exactly 0 at the first node and exactly 0 at the last node, and
`analyze` reports exactly this array scaled from meters to millimeters. -/
theorem calculateDeflection_boundary (span E I : ℚ) (segments : ℕ)
    (M : List ℚ) (loads : List Load)
    (hspan : 0 < span) (hE : 0 < E) (hI : 0 < I) (hseg : 1 ≤ segments)
    (hM : M.length = segments + 1) :
    (calculateDeflection span E I segments M).length = segments + 1
      ∧ (calculateDeflection span E I segments M).getD 0 0 = 0
      ∧ (calculateDeflection span E I segments M).getD segments 0 = 0
      ∧ (analyze span E I segments loads).deflection
        = (calculateDeflection span E I segments
            ((analyze span E I segments loads).moment)).map (fun d => d * 1000) := by
  have hspan0 : span ≠ 0 := ne_of_gt hspan
  have hsegQ : ((segments : ℚ)) ≠ 0 := Nat.cast_ne_zero.mpr (by omega)
  simp only [calculateDeflection]
  set curv := M.map (fun m => m / (E * I)) with hcurv
  set dxq := span / (segments : ℚ) with hdxq
  set slope := cumulativeIntegral curv dxq 0 with hslope
  set dfl := cumulativeIntegral slope dxq 0 with hdfl
  set xg := linspace 0 span (segments + 1) with hx
  have hlc : curv.length = segments + 1 := by simp [hcurv, hM]
  have hcne : curv ≠ [] := by
    intro hnil; rw [hnil] at hlc; simp at hlc
  have hls : slope.length = segments + 1 := by
    rw [hslope, cumulativeIntegral_length _ _ _ hcne, hlc]
  have hsne : slope ≠ [] := by
    intro hnil; rw [hnil] at hls; simp at hls
  have hld : dfl.length = segments + 1 := by
    rw [hdfl, cumulativeIntegral_length _ _ _ hsne, hls]
  have hlx : xg.length = segments + 1 := linspace_length 0 span (segments + 1) (by omega)
  have hxz : xg.getD 0 0 = 0 := by
    rw [hx, linspace_getD 0 span (segments + 1) 0 (by omega) (by omega)]
    simp
  have hxl : xg.getD segments 0 = span := by
    rw [hx, linspace_getD 0 span (segments + 1) segments (by omega) (by omega)]
    have hc : ((segments + 1 : ℕ) : ℚ) - 1 = (segments : ℚ) := by push_cast; ring
    rw [hc]
    field_simp
  have hdlast : dfl.length - 1 = segments := by omega
  refine ⟨?_, ?_, ?_, rfl⟩
  · rw [List.length_zipWith, hld, hlx]
    simp
  · rw [getD_zipWith _ _ _ 0 (by omega) (by omega)]
    rw [hxz, hdfl, cumulativeIntegral_getD_zero]
    ring
  · rw [getD_zipWith _ _ _ segments (by omega) (by omega)]
    rw [hxl, hdlast]
    field_simp

/-- Witness for C4: a unit beam with two nodes and moment array `[1, 2]`
deflects to exactly 0 at both ends. -/
theorem calculateDeflection_boundary_witness :
    ((0 : ℚ) < 1 ∧ (1 : ℕ) ≤ 1 ∧ ([(1 : ℚ), 2]).length = 1 + 1)
      ∧ (calculateDeflection 1 1 1 1 [1, 2]).getD 0 0 = 0
      ∧ (calculateDeflection 1 1 1 1 [1, 2]).getD 1 0 = 0 := by
  refine ⟨⟨by norm_num, le_rfl, by norm_num⟩, ?_, ?_⟩
  · exact (calculateDeflection_boundary 1 1 1 1 [1, 2] [] (by norm_num)
      (by norm_num) (by norm_num) le_rfl (by norm_num)).2.1
  · exact (calculateDeflection_boundary 1 1 1 1 [1, 2] [] (by norm_num)
      (by norm_num) (by norm_num) le_rfl (by norm_num)).2.2.1

/-! ### `findMaxAbs` characterization (C3) -/

/-- Once the champion is in the accumulator, the scan never replaces it. -/
lemma foldl_maxAbsStep_le (l : List ℚ) :
    ∀ (s : ℕ) (acc : ℚ × ℕ), (∀ v ∈ l, |v| ≤ |acc.1|) →
      (List.enumFrom s l).foldl maxAbsStep acc = acc := by
  induction l with
  | nil => intro s acc _; rfl
  | cons hd t ih =>
    intro s acc hle
    simp only [List.enumFrom, List.foldl_cons]
    have hstep : maxAbsStep acc (s, hd) = acc := by
      rw [maxAbsStep, if_neg (not_lt.mpr (hle hd (List.mem_cons_self hd t)))]
    rw [hstep]
    exact ih (s + 1) acc (fun v hv => hle v (List.mem_cons_of_mem hd hv))

/-- The scan finds the first index whose absolute value strictly dominates
everything before it and is not exceeded afterwards. -/
lemma foldl_maxAbsStep_found (v : ℚ) :
    ∀ (l : List ℚ) (i₀ s : ℕ) (acc : ℚ × ℕ),
      i₀ < l.length → l.getD i₀ 0 = v →
      (∀ j < i₀, |l.getD j 0| < |v|) → (∀ w ∈ l, |w| ≤ |v|) →
      |acc.1| < |v| →
      (List.enumFrom s l).foldl maxAbsStep acc = (v, s + i₀) := by
  intro l
  induction l with
  | nil => intro i₀ s acc h; simp at h
  | cons hd t ih =>
    intro i₀ s acc hlen hv hlt hle hacc
    simp only [List.enumFrom, List.foldl_cons]
    cases i₀ with
    | zero =>
      have hhd : hd = v := hv
      subst hhd
      have hstep : maxAbsStep acc (s, hd) = (hd, s) := by
        rw [maxAbsStep, if_pos hacc]
      rw [hstep,
        foldl_maxAbsStep_le t (s + 1) (hd, s)
          (fun w hw => hle w (List.mem_cons_of_mem hd hw))]
      simp
    | succ k =>
      have hhd : |hd| < |v| := by simpa using hlt 0 (Nat.succ_pos k)
      have hacc' : |(maxAbsStep acc (s, hd)).1| < |v| := by
        rw [maxAbsStep]
        split
        · exact hhd
        · exact hacc
      rw [ih k (s + 1) (maxAbsStep acc (s, hd)) (by simpa using hlen)
        (by simpa using hv)
        (fun j hj => by simpa using hlt (j + 1) (by omega))
        (fun w hw => hle w (List.mem_cons_of_mem hd hw)) hacc']
      have : s + 1 + k = s + (k + 1) := by omega
      rw [this]

/-- `findMaxAbs` in terms of a dominant entry: index `i₀` holds value `v`,
all earlier entries are strictly smaller in absolute value, no entry is
larger, and `|v| > 0` beats the initial accumulator. -/
lemma findMaxAbs_spec (arr : List ℚ) (dx v : ℚ) (i₀ : ℕ)
    (hin : i₀ < arr.length) (hv : arr.getD i₀ 0 = v)
    (hlt : ∀ j < i₀, |arr.getD j 0| < |v|) (hle : ∀ w ∈ arr, |w| ≤ |v|)
    (hpos : 0 < |v|) :
    findMaxAbs arr dx
      = { max := v, absMax := |v|, index := i₀, position := (i₀ : ℚ) * dx } := by
  rw [findMaxAbs,
    show arr.enum = List.enumFrom 0 arr from rfl,
    foldl_maxAbsStep_found v arr i₀ 0 (0, 0) hin hv hlt hle (by simpa using hpos)]
  simp

/-- Rounding a rational that is already exact at 4 decimals is the
identity. -/
lemma roundTo_eq_self (q : ℚ) (k : ℤ) (hk : q * 10 ^ 4 = (k : ℚ)) :
    roundTo q 4 = q := by
  rw [roundTo]
  have hfloor : ⌊q * (10 : ℚ) ^ 4 + 1 / 2⌋ = k := by
    rw [hk]
    refine Int.floor_eq_iff.mpr ⟨by norm_num, by norm_num⟩
  rw [hfloor]
  have h4 : ((10 : ℚ) ^ 4) ≠ 0 := by norm_num
  field_simp
  linarith [hk]

/-! ### End-to-end scenario (C3) -/

/-- The C3 scenario input: a single Point load of 10 kN at 3 m. -/
def scenarioInput : LoadInput :=
  { type := some LoadType.point, magnitude := some 10, position := some 3 }

/-- The C3 scenario's normalized load as the engine stores it. -/
def scenarioLoad : Load :=
  { type := LoadType.point, magnitude := 10, position := 3, start := 0, endPos := 6 }

/-- The C3 scenario result: span 6 m, E = 200 GPa, I = 1e-4 m⁴, default
segment count (500), analyzed end to end. -/
def scenarioResult : AnalysisResult :=
  analyzeBeam 6 [scenarioInput] (2 * 10 ^ 11) (1 / 10000)

/-- The scenario's load normalizes to `scenarioLoad`. -/
lemma scenario_setLoads : setLoads 6 [scenarioInput] = [scenarioLoad] := by
  simp [setLoads, addLoad, normalizeLoad, jsOr, scenarioInput, scenarioLoad]

/-- The scenario's reactions are `Ra = Rb = 5`. -/
lemma scenario_reactions :
    calculateReactions 6 [scenarioLoad] = { Ra := 5, Rb := 5 } := by
  simp only [calculateReactions, List.foldl_cons, List.foldl_nil, reactionStep,
    scenarioLoad]
  norm_num

/-- Shear at any station of the scenario beam. -/
lemma scenario_shearAt (xi : ℚ) :
    shearAt 5 [scenarioLoad] xi = if 3 ≤ xi then -5 else 5 := by
  simp only [shearAt, List.foldl_cons, List.foldl_nil, shearStep, scenarioLoad]
  split_ifs with h <;> norm_num

/-- Bending moment at any station of the scenario beam. -/
lemma scenario_momentAt (xi : ℚ) :
    momentAt 5 [scenarioLoad] xi = if 3 ≤ xi then 30 - 5 * xi else 5 * xi := by
  simp only [momentAt, List.foldl_cons, List.foldl_nil, momentStep, scenarioLoad]
  split_ifs with h <;> ring

/-- The scenario node grid. -/
lemma scenario_x_getD (j : ℕ) (hj : j < 501) :
    (linspace 0 6 (500 + 1)).getD j 0 = (j : ℚ) * (6 / 500) := by
  rw [linspace_getD 0 6 (500 + 1) j (by omega) (by omega)]
  norm_num

/-- Absolute moment bound on the scenario beam: every station between 0 and
6 has `|M| ≤ 15`. -/
lemma scenario_moment_bound (xi : ℚ) (h0 : 0 ≤ xi) (h6 : xi ≤ 6) :
    |momentAt 5 [scenarioLoad] xi| ≤ 15 := by
  rw [scenario_momentAt]
  split_ifs with h
  · rw [abs_of_nonneg (by linarith)]
    linarith
  · rw [abs_of_nonneg (by linarith)]
    linarith

/-- The scenario moment profile peaks (in absolute value) first at node 250,
i.e. midspan `x = 3`, with value 15. -/
lemma scenario_findMaxAbs :
    findMaxAbs ((linspace 0 6 (500 + 1)).map (momentAt 5 [scenarioLoad]))
        (6 / ((500 : ℕ) : ℚ))
      = { max := 15, absMax := 15, index := 250, position := 3 } := by
  have hlen : ((linspace 0 6 (500 + 1)).map (momentAt 5 [scenarioLoad])).length
      = 501 := by
    rw [List.length_map, linspace_length 0 6 (500 + 1) (by omega)]
  have hget : ∀ j : ℕ, j < 501 →
      ((linspace 0 6 (500 + 1)).map (momentAt 5 [scenarioLoad])).getD j 0
        = momentAt 5 [scenarioLoad] ((j : ℚ) * (6 / 500)) := by
    intro j hj
    rw [getD_map _ _ j (by rw [linspace_length 0 6 (500 + 1) (by omega)]; omega) 0 0,
      scenario_x_getD j hj]
  have h1 : 250 < ((linspace 0 6 (500 + 1)).map (momentAt 5 [scenarioLoad])).length := by
    rw [hlen]; norm_num
  have h2 : ((linspace 0 6 (500 + 1)).map (momentAt 5 [scenarioLoad])).getD 250 0
      = 15 := by
    rw [hget 250 (by norm_num), scenario_momentAt]
    norm_num
  have h3 : ∀ j < 250,
      |((linspace 0 6 (500 + 1)).map (momentAt 5 [scenarioLoad])).getD j 0|
        < |(15 : ℚ)| := by
    intro j hj
    rw [hget j (by omega), scenario_momentAt]
    have hjq : (j : ℚ) < 250 := by exact_mod_cast hj
    have hxj : (j : ℚ) * (6 / 500) < 3 := by nlinarith
    rw [if_neg (by linarith), abs_of_nonneg (by positivity),
      abs_of_nonneg (by norm_num : (0 : ℚ) ≤ 15)]
    nlinarith
  have h4 : ∀ w ∈ (linspace 0 6 (500 + 1)).map (momentAt 5 [scenarioLoad]),
      |w| ≤ |(15 : ℚ)| := by
    intro w hw
    rw [List.mem_map] at hw
    obtain ⟨xi, hxi, rfl⟩ := hw
    rw [linspace, if_neg (by omega)] at hxi
    simp only [List.mem_map, List.mem_range] at hxi
    obtain ⟨j, hj, rfl⟩ := hxi
    have hjq : (j : ℚ) ≤ 500 := by exact_mod_cast Nat.lt_succ_iff.mp hj
    have h0 : (0 : ℚ) ≤ (j : ℚ) := Nat.cast_nonneg j
    have hxeq : (0 : ℚ) + (j : ℚ) * ((6 - 0) / ((((500 : ℕ) + 1 : ℕ) : ℚ) - 1))
        = (j : ℚ) * (6 / 500) := by push_cast; norm_num
    rw [hxeq, show |(15 : ℚ)| = 15 from by norm_num]
    exact scenario_moment_bound _ (by positivity) (by nlinarith)
  rw [findMaxAbs_spec _ _ 15 250 h1 h2 h3 h4 (by norm_num)]
  norm_num

/-- C3.  End-to-end: a simply supported beam of span 6 m, E = 200 GPa,
I = 1e-4 m⁴, default segment count, with a single 10 kN Point load at 3 m
analyzes to reactions `Ra = Rb = 5` kN, a maximum absolute bending moment of
15 kN·m at position 3 m, and a shear profile equal to +5 kN at every node
strictly left of x = 3 and −5 kN at every node at or right of x = 3. -/
theorem beam_point_load_scenario :
    scenarioResult.reactions.Ra = 5
      ∧ scenarioResult.reactions.Rb = 5
      ∧ scenarioResult.maxValues.moment = 15
      ∧ scenarioResult.maxValues.momentPosition = 3
      ∧ scenarioResult.shear
        = scenarioResult.x.map (fun xi => if xi < 3 then 5 else -5) := by
  have hres : scenarioResult
      = analyze 6 (2 * 10 ^ 11) (1 / 10000) 500 [scenarioLoad] := by
    rw [scenarioResult, analyzeBeam, scenario_setLoads]
  rw [hres]
  simp only [analyze, scenario_reactions, calculateShearForce,
    calculateBendingMoment]
  refine ⟨?_, ?_, ?_, ?_, ?_⟩
  · exact roundTo_eq_self 5 50000 (by norm_num)
  · exact roundTo_eq_self 5 50000 (by norm_num)
  · rw [scenario_findMaxAbs]
    exact roundTo_eq_self 15 150000 (by norm_num)
  · rw [scenario_findMaxAbs]
    exact roundTo_eq_self 3 30000 (by norm_num)
  · refine List.map_congr_left fun xi _ => ?_
    rw [scenario_shearAt]
    rcases lt_or_le xi 3 with h | h
    · rw [if_neg (by linarith), if_pos h]
    · rw [if_pos h, if_neg (by linarith)]

end CiviCalc
